import Mathlib

/-!
Verification development for the NGO health landing page enhancer
(`src/js/main.js`).  The JavaScript is shallowly embedded: each pure
helper becomes a Lean function on `String` / `List Char`, the form
submit handler becomes explicit state passing over a list of fields,
and the DOM-facing features (filtering, counters, observers, anchor
clicks) become pure state-transition functions.
-/

namespace LandingPage

/-! ## JavaScript string primitives -/

/-- The JavaScript regular-expression whitespace class `\s`
(space separators, tab, line terminators, NBSP, BOM, and the
Unicode space separators). -/
def jsSpace (c : Char) : Bool :=
  c == ' ' || c == '\t' || c == '\n' || c.val == 11 || c.val == 12 || c == '\r' ||
  c.val == 0xA0 || c.val == 0x1680 || (0x2000 ≤ c.val && c.val ≤ 0x200A) ||
  c.val == 0x2028 || c.val == 0x2029 || c.val == 0x202F || c.val == 0x205F ||
  c.val == 0x3000 || c.val == 0xFEFF

/-- `String.prototype.trim`: remove whitespace from both ends. -/
def jsTrim (cs : List Char) : List Char :=
  ((cs.dropWhile jsSpace).reverse.dropWhile jsSpace).reverse

/-! ## Form validation helpers (`main.js` lines 355-378) -/

/-- The character class `[^\s@]` of the e-mail regular expression. -/
def emailChar (c : Char) : Bool := !(jsSpace c) && c != '@'

/-- `p+` for a one-character class `p`: a non-empty run of characters
satisfying `p`. -/
def seg (p : Char → Bool) (cs : List Char) : Bool :=
  !cs.isEmpty && cs.all p

/-- Does some split of `cs` into a prefix and a suffix satisfy `f`?
Used to give executable meaning to regular-expression concatenation. -/
def splitsAny (cs : List Char) (f : List Char → List Char → Bool) : Bool :=
  (List.range (cs.length + 1)).any (fun i => f (cs.take i) (cs.drop i))

/-- A literal character followed by a continuation pattern: the
regular-expression step `ch k`. -/
def litThen (ch : Char) (k : List Char → Bool) : List Char → Bool
  | c :: rest => c == ch && k rest
  | [] => false

/-- The sub-pattern `[^\s@]+\.[^\s@]+` matched against `cs`. -/
def emailDomain (cs : List Char) : Bool :=
  splitsAny cs (fun d r => seg emailChar d && litThen '.' (seg emailChar) r)

/-- `isValidEmail` (`main.js` line 355): test of
`^[^\s@]+@[^\s@]+\.[^\s@]+$` against the whole string. -/
def isValidEmail (s : String) : Bool :=
  splitsAny s.data (fun l r => seg emailChar l && litThen '@' emailDomain r)

/-- The sub-pattern `[789]\d{9}` of the phone regular expression. -/
def phoneTail : List Char → Bool
  | c :: rest =>
      (c == '7' || c == '8' || c == '9') && rest.length == 9 &&
        rest.all (fun d => d.isDigit)
  | [] => false

/-- The pattern `^(\+234|0)[789]\d{9}$` matched against `cs`. -/
def phoneMatch : List Char → Bool
  | '+' :: '2' :: '3' :: '4' :: rest => phoneTail rest
  | '0' :: rest => phoneTail rest
  | _ => false

/-- `isValidNigerianPhone` (`main.js` line 365): the phone pattern is
tested against the result of `phone.replace` with the global `\s`
pattern, i.e. the string with every
whitespace character removed. -/
def isValidNigerianPhone (s : String) : Bool :=
  phoneMatch (s.data.filter (fun c => !(jsSpace c)))

/-- `isRequired` (`main.js` line 376): non-empty after trimming. -/
def isRequired (s : String) : Bool :=
  0 < (jsTrim s.data).length

/-! ## Form submit handler (`main.js` lines 439-470)

A required form field is modelled by its `name` attribute and its
`type` attribute; the form data (`new FormData(form)`) is a partial map
from names to string values, with `none` standing for the `null` that
`FormData.get` returns when the name is absent. -/

/-- The `type` attribute of a field as the handler inspects it. -/
inductive FType where
  | email
  | tel
  | other
deriving DecidableEq

/-- A required field of an opted-in form (the required-marked elements listed by `form.querySelectorAll`). -/
structure Field where
  name : String
  ftype : FType
deriving DecidableEq

/-- The outcome of the per-field `if`/`else if` chain in the submit
handler: which error is shown, or the field is cleared. -/
inductive FieldMark where
  | errRequired
  | errEmail
  | errTel
  | clear
deriving DecidableEq

/-- One iteration of the handler body (`main.js` lines 448-461) on the
value `FormData.get` returned for the field.  When the value is `null`
(`none`), `isRequired(null)` evaluates `null.trim()` and throws a
`TypeError`, modelled by `Except.error`. -/
def checkField (ft : FType) (v : Option String) : Except Unit FieldMark :=
  match v with
  | none => .error ()
  | some s =>
      .ok (if !(isRequired s) then .errRequired
           else if ft = .email && !(isValidEmail s) then .errEmail
           else if ft = .tel && !(isValidNigerianPhone s) then .errTel
           else .clear)

/-- The `forEach` over required fields: returns the marks applied to the
fields processed before any exception, paired with whether a
`TypeError` escaped (aborting the `forEach` and the listener). -/
def processFields (fd : String → Option String) : List Field → List FieldMark × Bool
  | [] => ([], false)
  | f :: rest =>
      match checkField f.ftype (fd f.name) with
      | .error _ => ([], true)
      | .ok m =>
          let p := processFields fd rest
          (m :: p.1, p.2)

/-- Whether `form.submit()` is reached (`main.js` lines 464-466):
`preventDefault` has already run, so a network request happens exactly
when no exception escaped and every field was marked clear. -/
def submitProceeds (fields : List Field) (fd : String → Option String) : Bool :=
  let p := processFields fd fields
  !p.2 && p.1.all (fun m => m = FieldMark.clear)

/-- The error message text chosen for each failing branch
(`main.js` lines 451, 454, 457). -/
def messageOf : FieldMark → Option String
  | .errRequired => some "This field is required"
  | .errEmail => some "Please enter a valid email address"
  | .errTel => some "Please enter a valid Nigerian phone number"
  | .clear => none

/-- The DOM annotations on a field that `showValidationError` /
`clearValidationError` manage: the inline error text next to the field,
and the `aria-invalid` / `aria-describedby` attributes (`none` =
attribute absent). -/
structure FieldDom where
  errorText : Option String
  ariaInvalid : Option String
  ariaDescribedby : Option String
deriving DecidableEq

/-- Effect of a mark on the field annotations.  `showValidationError`
(`main.js` lines 385-408) creates the error `span` WITHOUT assigning it
an id, then sets the aria-describedby attribute to `errorElement.id`,
so the attribute is set to the empty string.  `clearValidationError`
(`main.js` lines 414-426) removes the error and both attributes. -/
def applyMark (m : FieldMark) : FieldDom :=
  match m with
  | .clear => { errorText := none, ariaInvalid := none, ariaDescribedby := none }
  | m => { errorText := messageOf m, ariaInvalid := some "true", ariaDescribedby := some "" }

/-- Annotations of the processed fields after one submit, in document
order (fields after a thrown `TypeError` are never annotated and do not
appear). -/
def submitDoms (fields : List Field) (fd : String → Option String) : List FieldDom :=
  (processFields fd fields).1.map applyMark

/-! ## Top-level initialization (`main.js` lines 1217-1236)

`init` runs the seven feature initializers in a fixed order inside a
single `try`/`catch`.  `initHeroSection`, `initAboutSection` and
`initProgramsSection` each wrap their own body in `try`/`catch`
(lines 493/709, 725/960, 976/1203), so a fault there never escapes; the
other four have no internal handler, so a fault propagates to the outer
`catch`, which logs and returns, skipping the rest of the sequence. -/

/-- The seven top-level feature initializers. -/
inductive Feature where
  | mobileMenu
  | smoothScroll
  | lazyLoading
  | formValidation
  | hero
  | about
  | programs
deriving DecidableEq

/-- Which initializers contain their own `try`/`catch` fault boundary. -/
def hasOwnCatch : Feature → Bool
  | .hero => true
  | .about => true
  | .programs => true
  | _ => false

/-- The call order in `init` (`main.js` lines 1223-1229). -/
def initOrder : List Feature :=
  [.mobileMenu, .smoothScroll, .lazyLoading, .formValidation, .hero, .about, .programs]

/-- The initializers whose setup actually starts, given which features
fault during setup: a fault in an initializer without its own handler
propagates to the single outer `catch`, ending the sequence. -/
def runInitFrom (faults : Feature → Bool) : List Feature → List Feature
  | [] => []
  | f :: rest =>
      f :: (if faults f && !(hasOwnCatch f) then [] else runInitFrom faults rest)

/-- The initializers started by `init` under the given fault set. -/
def runInit (faults : Feature → Bool) : List Feature :=
  runInitFrom faults initOrder

/-! ## Program card filtering (`main.js` lines 1009-1034) -/

/-- A program card: its `data-category` attribute, whether the `hidden`
class is present, and the value of its `aria-hidden` attribute
(`none` = attribute absent). -/
structure Card where
  category : String
  hidden : Bool
  ariaHidden : Option String
deriving DecidableEq

/-- The `programCards.forEach` body of `filterPrograms`: updates every
card and counts the shown ones. -/
def filterPrograms (category : String) : List Card → List Card × Nat
  | [] => ([], 0)
  | card :: rest =>
      let p := filterPrograms category rest
      if category = "all" || card.category = category then
        ({ card with hidden := false, ariaHidden := some "false" } :: p.1, p.2 + 1)
      else
        ({ card with hidden := true, ariaHidden := some "true" } :: p.1, p.2)

/-- The text written to the ARIA live region (`main.js` lines 1027-1028). -/
def filterAnnouncement (category : String) (visibleCount : Nat) : String :=
  let categoryLabel := if category = "all" then "all programs" else category ++ " programs"
  "Showing " ++ toString visibleCount ++ " " ++ categoryLabel

/-! ## Counter animation (`main.js` lines 790-833)

JavaScript numbers are modelled by exact rationals.  One frame of
`updateCounter` computes the clamped progress, the eased progress and
the floored current value; on the final frame (`progress = 1`) the
`else` branch overwrites the text with the target itself.  With
`prefers-reduced-motion`, `animateCounter` writes the target at once. -/

/-- `easeOutCubic` (`main.js` line 810). -/
def easeOutCubic (t : ℚ) : ℚ := 1 - (1 - t) ^ 3

/-- The integer displayed at the end of one `updateCounter` frame with
clamped progress `progress` (`main.js` lines 816-829); `startValue = 0`. -/
def counterFrame (target : ℕ) (progress : ℚ) : ℤ :=
  let startValue : ℚ := 0
  let currentValue := ⌊startValue + ((target : ℚ) - startValue) * easeOutCubic progress⌋
  if progress < 1 then currentValue else (target : ℤ)

/-- The integer displayed by `animateCounter` at elapsed time `elapsed`
of a duration-`duration` animation (`main.js` lines 790-833), including
the reduced-motion snap (lines 797-800). -/
def animateCounterDisplay (target : ℕ) (prefersReducedMotion : Bool)
    (elapsed duration : ℚ) : ℤ :=
  if prefersReducedMotion then (target : ℤ)
  else counterFrame target (min (elapsed / duration) 1)

/-! ## One-shot intersection observers

All observer callbacks in the script follow one pattern: when an entry
for an observed target is intersecting, fire the one-shot effect and
`unobserve` the target (`main.js` lines 320-327, 582-603, 766-771,
1141-1156).  The state is the observed set plus, per element, how many
times its effect has fired; the browser delivers intersection events
only for currently observed targets, which the guard models. -/

/-- Observer state over elements of type `E`. -/
structure ObsState (E : Type) where
  observed : List E
  fired : E → Nat

/-- Initial state: `elements.forEach((el) => observer.observe(el))`,
with no effect fired yet. -/
def obsInit {E : Type} (l : List E) : ObsState E :=
  { observed := l, fired := fun _ => 0 }

/-- One intersecting entry for element `e`: if `e` is observed, fire its
effect and unobserve it; otherwise nothing happens. -/
def obsStep {E : Type} [DecidableEq E] (s : ObsState E) (e : E) : ObsState E :=
  if e ∈ s.observed then
    { observed := s.observed.erase e,
      fired := fun x => if x = e then s.fired x + 1 else s.fired x }
  else s

/-- Run a whole sequence of intersection events. -/
def obsRun {E : Type} [DecidableEq E] (s : ObsState E) (events : List E) : ObsState E :=
  events.foldl obsStep s

/-! ## Anchor click handler (`main.js` lines 227-270) -/

/-- `CONFIG.SCROLL_OFFSET` (`main.js` line 49). -/
def SCROLL_OFFSET : ℤ := 80

/-- Observable outcome of one anchor click: whether default navigation
was prevented, the scroll destination (if any), whether the scroll used
smooth behavior, whether focus moved to the target, and whether the
missing-target warning was logged. -/
structure ClickResult where
  defaultPrevented : Bool
  scrolledTo : Option ℤ
  smoothBehavior : Bool
  focusMoved : Bool
  warnLogged : Bool
deriving DecidableEq

/-- The click listener attached to each `a[href^="#"]`.  `href` is the
attribute value (`none` = absent); `resolveTop` gives, for a fragment
that resolves, the absolute top of the target element, namely
`getBoundingClientRect().top + window.pageYOffset`. -/
def handleAnchorClick (href : Option String) (resolveTop : String → Option ℤ)
    (smoothScrollSupported : Bool) : ClickResult :=
  match href with
  | none => ⟨false, none, false, false, false⟩
  | some h =>
      if h = "" || h = "#" || h = "#main" then
        ⟨false, none, false, false, false⟩
      else
        match resolveTop h with
        | none => ⟨false, none, false, false, true⟩
        | some targetPosition =>
            ⟨true, some (targetPosition - SCROLL_OFFSET), smoothScrollSupported, true, false⟩

/-! ## Concrete demonstration inputs used by witnesses and
counterexamples -/

/-- A two-field contact form: an e-mail field and a free-text field. -/
def demoFields : List Field := [⟨"email", .email⟩, ⟨"msg", .other⟩]

/-- Form data for `demoFields` where both fields hold passing values. -/
def demoFd : String → Option String :=
  fun n => if n = "email" then some "a@b.co" else if n = "msg" then some "hello" else none

/-- The end-to-end scenario of the spec: one empty required text field
followed by one valid e-mail field. -/
def c4Fields : List Field := [⟨"fullname", .other⟩, ⟨"email", .email⟩]

/-- Form data for `c4Fields`: the text field is empty, the e-mail
field holds a valid address. -/
def c4Fd : String → Option String :=
  fun n => if n = "fullname" then some "" else if n = "email" then some "a@b.co" else none

/-- A form whose middle required field has no entry in the form data
(for example, a field without a `name` attribute). -/
def c10Fields : List Field := [⟨"first", .other⟩, ⟨"ghost", .other⟩, ⟨"last", .other⟩]

/-- Form data for `c10Fields`: `FormData.get` yields `null` for the
middle field. -/
def c10Fd : String → Option String :=
  fun n => if n = "first" then some "ok" else if n = "last" then some "ok" else none

/-- A document where the fragment `#main` resolves to an element whose
absolute top is 500. -/
def mainResolver : String → Option ℤ :=
  fun h => if h = "#main" then some 500 else none

/-- A document where the fragment `#about` resolves to an element whose
absolute top is 300. -/
def aboutResolver : String → Option ℤ :=
  fun h => if h = "#about" then some 300 else none

/-! ## Characterizations of the string matchers -/

lemma seg_iff (p : Char → Bool) (cs : List Char) :
    seg p cs = true ↔ cs ≠ [] ∧ ∀ c ∈ cs, p c = true := by
  simp [seg, List.isEmpty_iff, List.all_eq_true]

lemma splitsAny_iff (cs : List Char) (f : List Char → List Char → Bool) :
    splitsAny cs f = true ↔ ∃ i, i ≤ cs.length ∧ f (cs.take i) (cs.drop i) = true := by
  simp [splitsAny, List.any_eq_true, List.mem_range, Nat.lt_succ_iff]

lemma litThen_iff (ch : Char) (k : List Char → Bool) (cs : List Char) :
    litThen ch k cs = true ↔ ∃ rest, cs = ch :: rest ∧ k rest = true := by
  cases cs with
  | nil => simp [litThen]
  | cons c rest =>
      simp only [litThen, Bool.and_eq_true, beq_iff_eq, List.cons.injEq]
      constructor
      · rintro ⟨rfl, hk⟩
        exact ⟨rest, ⟨rfl, rfl⟩, hk⟩
      · rintro ⟨r, ⟨rfl, rfl⟩, hk⟩
        exact ⟨rfl, hk⟩

lemma emailChar_iff (c : Char) :
    emailChar c = true ↔ ¬(jsSpace c = true) ∧ c ≠ '@' := by
  simp [emailChar]

lemma emailDomain_iff (cs : List Char) :
    emailDomain cs = true ↔
      ∃ d t, cs = d ++ '.' :: t ∧ seg emailChar d = true ∧ seg emailChar t = true := by
  rw [emailDomain, splitsAny_iff]
  constructor
  · rintro ⟨i, _, hf⟩
    rw [Bool.and_eq_true, litThen_iff] at hf
    obtain ⟨h1, rest, hEq, h2⟩ := hf
    refine ⟨cs.take i, rest, ?_, h1, h2⟩
    conv_lhs => rw [← List.take_append_drop i cs]
    rw [hEq]
  · rintro ⟨d, t, rfl, h1, h2⟩
    refine ⟨d.length, by simp, ?_⟩
    rw [Bool.and_eq_true, List.take_left, List.drop_left, litThen_iff]
    exact ⟨h1, t, rfl, h2⟩

lemma isValidEmail_iff (s : String) :
    isValidEmail s = true ↔
      ∃ l d t, s.data = l ++ '@' :: (d ++ '.' :: t) ∧
        seg emailChar l = true ∧ seg emailChar d = true ∧ seg emailChar t = true := by
  rw [isValidEmail, splitsAny_iff]
  constructor
  · rintro ⟨i, _, hf⟩
    rw [Bool.and_eq_true, litThen_iff] at hf
    obtain ⟨h1, rest, hEq, h2⟩ := hf
    rw [emailDomain_iff] at h2
    obtain ⟨d, t, rfl, h2, h3⟩ := h2
    refine ⟨s.data.take i, d, t, ?_, h1, h2, h3⟩
    conv_lhs => rw [← List.take_append_drop i s.data]
    rw [hEq]
  · rintro ⟨l, d, t, hEq, h1, h2, h3⟩
    refine ⟨l.length, ?_, ?_⟩
    · rw [hEq]; simp
    · rw [hEq, Bool.and_eq_true, List.take_left, List.drop_left, litThen_iff]
      exact ⟨h1, d ++ '.' :: t, rfl, (emailDomain_iff _).mpr ⟨d, t, rfl, h2, h3⟩⟩

/-- C1: `isValidEmail s` is true exactly when `s` decomposes as
`local@domain.tld` — a single `@` separating a non-empty local part
from a domain that itself splits at a dot into two non-empty pieces —
with no whitespace (and no further `@`) anywhere; in particular
`"a@b.co"` is accepted while `"a@b"` and `"a b@c.com"` are rejected. -/
theorem isValidEmail_spec :
    (∀ s : String, isValidEmail s = true ↔
      ∃ l d t : List Char, s.data = l ++ '@' :: (d ++ '.' :: t) ∧
        l ≠ [] ∧ d ≠ [] ∧ t ≠ [] ∧
        ∀ c ∈ l ++ d ++ t, ¬(jsSpace c = true) ∧ c ≠ '@') ∧
    isValidEmail "a@b.co" = true ∧
    isValidEmail "a@b" = false ∧
    isValidEmail "a b@c.com" = false := by
  refine ⟨?_, by decide, by decide, by decide⟩
  intro s
  rw [isValidEmail_iff]
  constructor
  · rintro ⟨l, d, t, hEq, hl, hd, ht⟩
    rw [seg_iff] at hl hd ht
    refine ⟨l, d, t, hEq, hl.1, hd.1, ht.1, ?_⟩
    intro c hc
    rw [← emailChar_iff]
    rcases List.mem_append.mp hc with hc' | hc'
    · rcases List.mem_append.mp hc' with hc'' | hc''
      · exact hl.2 c hc''
      · exact hd.2 c hc''
    · exact ht.2 c hc'
  · rintro ⟨l, d, t, hEq, hl, hd, ht, hall⟩
    refine ⟨l, d, t, hEq, ?_, ?_, ?_⟩ <;> rw [seg_iff]
    · exact ⟨hl, fun c hc => (emailChar_iff c).mpr
        (hall c (List.mem_append_left _ (List.mem_append_left _ hc)))⟩
    · exact ⟨hd, fun c hc => (emailChar_iff c).mpr
        (hall c (List.mem_append_left _ (List.mem_append_right _ hc)))⟩
    · exact ⟨ht, fun c hc => (emailChar_iff c).mpr
        (hall c (List.mem_append_right _ hc))⟩

/-! ## Phone matcher characterization -/

lemma phoneTail_iff (cs : List Char) :
    phoneTail cs = true ↔
      ∃ c ds, cs = c :: ds ∧ (c = '7' ∨ c = '8' ∨ c = '9') ∧
        ds.length = 9 ∧ ∀ d ∈ ds, d.isDigit = true := by
  cases cs with
  | nil => simp [phoneTail]
  | cons c ds =>
      simp only [phoneTail, Bool.and_eq_true, Bool.or_eq_true, beq_iff_eq,
        List.all_eq_true, List.cons.injEq]
      constructor
      · rintro ⟨⟨hc, hlen⟩, hds⟩
        exact ⟨c, ds, ⟨rfl, rfl⟩, or_assoc.mp hc, by simpa using hlen, hds⟩
      · rintro ⟨c', ds', ⟨rfl, rfl⟩, hc, hlen, hds⟩
        exact ⟨⟨or_assoc.mpr hc, by simpa using hlen⟩, hds⟩

lemma phoneMatch_iff (cs : List Char) :
    phoneMatch cs = true ↔
      ∃ rest, (cs = '+' :: '2' :: '3' :: '4' :: rest ∨ cs = '0' :: rest) ∧
        phoneTail rest = true := by
  unfold phoneMatch
  split
  · rename_i rest
    constructor
    · intro h
      exact ⟨rest, Or.inl rfl, h⟩
    · rintro ⟨r, (hEq | hEq), hr⟩ <;> simp_all
  · rename_i rest
    constructor
    · intro h
      exact ⟨rest, Or.inr rfl, h⟩
    · rintro ⟨r, (hEq | hEq), hr⟩ <;> simp_all
  · rename_i h1 h2
    constructor
    · intro h
      exact absurd h (by simp)
    · rintro ⟨r, (rfl | rfl), hr⟩
      · exact absurd rfl (by exact fun h => h1 r h)
      · exact absurd rfl (by exact fun h => h2 r h)

/-- C2 counterexample: the code accepts `"08111234567"` (the digit
after the leading 0 is 8, a valid mobile-prefix digit, followed by
nine digits) and also `"0803 123 4567"` (the regular expression is
applied after removing ALL whitespace, not only surrounding
whitespace), both of which the claim as stated rejects. -/
theorem isValidNigerianPhone_counterexample :
    isValidNigerianPhone "08111234567" = true ∧
    isValidNigerianPhone "0803 123 4567" = true := by
  exact ⟨by decide, by decide⟩

/-- C2 (amended): `isValidNigerianPhone s` is true exactly when the
string obtained from `s` by removing every whitespace character is
`+234` or `0` followed by a digit in {7, 8, 9} and nine further
digits; `"+2348031234567"`, `"08031234567"` and `"08111234567"` are
accepted, `"070312345"` is rejected. -/
theorem isValidNigerianPhone_amended :
    (∀ s : String, isValidNigerianPhone s = true ↔
      ∃ p rest, s.data.filter (fun c => !(jsSpace c)) = p ++ rest ∧
        (p = ['+', '2', '3', '4'] ∨ p = ['0']) ∧
        ∃ c ds, rest = c :: ds ∧ (c = '7' ∨ c = '8' ∨ c = '9') ∧
          ds.length = 9 ∧ ∀ d ∈ ds, d.isDigit = true) ∧
    isValidNigerianPhone "+2348031234567" = true ∧
    isValidNigerianPhone "08031234567" = true ∧
    isValidNigerianPhone "08111234567" = true ∧
    isValidNigerianPhone "070312345" = false := by
  refine ⟨?_, by decide, by decide, by decide, by decide⟩
  intro s
  rw [isValidNigerianPhone, phoneMatch_iff]
  constructor
  · rintro ⟨rest, (hEq | hEq), hr⟩
    · exact ⟨['+', '2', '3', '4'], rest, by simpa using hEq, Or.inl rfl,
        (phoneTail_iff rest).mp hr⟩
    · exact ⟨['0'], rest, by simpa using hEq, Or.inr rfl,
        (phoneTail_iff rest).mp hr⟩
  · rintro ⟨p, rest, hEq, (rfl | rfl), htail⟩
    · exact ⟨rest, Or.inl (by simpa using hEq), (phoneTail_iff rest).mpr htail⟩
    · exact ⟨rest, Or.inr (by simpa using hEq), (phoneTail_iff rest).mpr htail⟩

/-! ## Form submit handler lemmas -/

lemma checkField_clear_iff (ft : FType) (v : String) :
    checkField ft (some v) = .ok .clear ↔
      (isRequired v = true ∧ (ft = .email → isValidEmail v = true) ∧
       (ft = .tel → isValidNigerianPhone v = true)) := by
  cases ft <;>
    by_cases hr : isRequired v <;>
      by_cases he : isValidEmail v <;>
        by_cases hp : isValidNigerianPhone v <;>
          simp [checkField, hr, he, hp]

lemma processFields_all_some (fd : String → Option String) :
    ∀ fields : List Field, (∀ f ∈ fields, (fd f.name).isSome = true) →
      (processFields fd fields).2 = false ∧
      ((processFields fd fields).1.all (fun m => m = FieldMark.clear) = true ↔
        ∀ f ∈ fields, checkField f.ftype (fd f.name) = .ok .clear) := by
  intro fields
  induction fields with
  | nil => intro _; simp [processFields]
  | cons f rest ih =>
      intro hall
      obtain ⟨v, hv⟩ := Option.isSome_iff_exists.mp (hall f (List.mem_cons_self f rest))
      have hrest := ih (fun g hg => hall g (List.mem_cons_of_mem f hg))
      simp only [processFields, hv, checkField, List.all_cons, Bool.and_eq_true,
        decide_eq_true_eq, List.forall_mem_cons, hrest.1, hrest.2, hv]
      refine ⟨trivial, ?_⟩
      constructor
      · rintro ⟨hm, htail⟩
        exact ⟨congrArg Except.ok hm, htail⟩
      · rintro ⟨hm, htail⟩
        exact ⟨Except.ok.inj hm, htail⟩

/-- C3: a submitted opted-in form whose required fields all have form
data proceeds to `form.submit()` exactly when every required field
passes its check — non-empty after trimming, e-mail shape for
email-typed fields, Nigerian phone shape for tel-typed fields;
otherwise the (always prevented) default action is never replaced by a
programmatic submit, so no network request is made. -/
theorem submitProceeds_iff (fields : List Field) (fd : String → Option String)
    (hall : ∀ f ∈ fields, (fd f.name).isSome = true) :
    submitProceeds fields fd = true ↔
      ∀ f ∈ fields, ∀ v, fd f.name = some v →
        (isRequired v = true ∧
         (f.ftype = .email → isValidEmail v = true) ∧
         (f.ftype = .tel → isValidNigerianPhone v = true)) := by
  have h := processFields_all_some fd fields hall
  rw [submitProceeds]
  rw [h.1]
  simp only [Bool.not_false, Bool.true_and, h.2]
  constructor
  · intro hclr f hf v hv
    have := hclr f hf
    rw [hv] at this
    exact (checkField_clear_iff f.ftype v).mp this
  · intro hok f hf
    obtain ⟨v, hv⟩ := Option.isSome_iff_exists.mp (hall f hf)
    rw [hv]
    exact (checkField_clear_iff f.ftype v).mpr (hok f hf v hv)

/-- C3 witness: the concrete two-field form with all-passing values
does reach `form.submit()`. -/
theorem submitProceeds_iff_witness : submitProceeds demoFields demoFd = true :=
  (submitProceeds_iff demoFields demoFd (by simp [demoFields, demoFd])).mpr
    (by simp [demoFields, demoFd]; decide)

lemma processFields_append_none (fd : String → Option String) (f : Field)
    (post : List Field) (hf : fd f.name = none) :
    ∀ pre : List Field, (∀ g ∈ pre, (fd g.name).isSome = true) →
      processFields fd (pre ++ f :: post) = ((processFields fd pre).1, true) := by
  intro pre
  induction pre with
  | nil =>
      intro _
      simp [processFields, hf, checkField]
  | cons g rest ih =>
      intro hall
      obtain ⟨v, hv⟩ := Option.isSome_iff_exists.mp (hall g (List.mem_cons_self g rest))
      have h2 := ih (fun x hx => hall x (List.mem_cons_of_mem g hx))
      simp [processFields, hv, checkField, h2]

lemma processFields_length (fd : String → Option String) :
    ∀ fields : List Field, (∀ g ∈ fields, (fd g.name).isSome = true) →
      (processFields fd fields).1.length = fields.length := by
  intro fields
  induction fields with
  | nil => intro _; simp [processFields]
  | cons g rest ih =>
      intro hall
      obtain ⟨v, hv⟩ := Option.isSome_iff_exists.mp (hall g (List.mem_cons_self g rest))
      have := ih (fun x hx => hall x (List.mem_cons_of_mem g hx))
      simp only [processFields, hv, checkField, List.length_cons, this]

/-- C10: when `FormData.get` yields `null` for a required field, the
per-field loop calls `isRequired(null)`, whose `.trim()` throws a
`TypeError`: the `forEach` aborts, exactly the fields before the bad
one are annotated, and the submit is never reached. -/
theorem nullField_aborts (pre : List Field) (f : Field) (post : List Field)
    (fd : String → Option String)
    (hpre : ∀ g ∈ pre, (fd g.name).isSome = true)
    (hf : fd f.name = none) :
    processFields fd (pre ++ f :: post) = ((processFields fd pre).1, true) ∧
    (processFields fd (pre ++ f :: post)).1.length = pre.length ∧
    submitProceeds (pre ++ f :: post) fd = false ∧
    submitDoms (pre ++ f :: post) fd = (processFields fd pre).1.map applyMark := by
  have h := processFields_append_none fd f post hf pre hpre
  refine ⟨h, ?_, ?_, ?_⟩
  · rw [h]
    exact processFields_length fd pre hpre
  · rw [submitProceeds, h]
    simp
  · rw [submitDoms, h]

/-- C10 witness: with the concrete three-field form whose middle field
has no form data, only the first field is annotated and submission is
suppressed. -/
theorem nullField_aborts_witness :
    processFields c10Fd ([⟨"first", .other⟩] ++ ⟨"ghost", .other⟩ :: [⟨"last", .other⟩]) =
      ((processFields c10Fd [⟨"first", .other⟩]).1, true) ∧
    (processFields c10Fd ([⟨"first", .other⟩] ++ ⟨"ghost", .other⟩ :: [⟨"last", .other⟩])).1.length =
      ([⟨"first", FType.other⟩] : List Field).length ∧
    submitProceeds ([⟨"first", .other⟩] ++ ⟨"ghost", .other⟩ :: [⟨"last", .other⟩]) c10Fd = false ∧
    submitDoms ([⟨"first", .other⟩] ++ ⟨"ghost", .other⟩ :: [⟨"last", .other⟩]) c10Fd =
      (processFields c10Fd [⟨"first", .other⟩]).1.map applyMark :=
  nullField_aborts [⟨"first", .other⟩] ⟨"ghost", .other⟩ [⟨"last", .other⟩] c10Fd
    (by simp [c10Fd]) (by simp [c10Fd])

/-- C4: at the end-to-end input of the spec — one empty required text
field followed by one valid e-mail field — exactly one error is
attached, to the empty field, the e-mail field is cleared, and
submission is blocked; but on the failing field the `aria-describedby` is
set to the EMPTY string, because `showValidationError` reads
`errorElement.id` from a `span` it never gave an id, so the attribute
references no element at all. -/
theorem describedby_is_empty :
    submitDoms c4Fields c4Fd =
      [{ errorText := some "This field is required", ariaInvalid := some "true",
         ariaDescribedby := some "" },
       { errorText := none, ariaInvalid := none, ariaDescribedby := none }] ∧
    submitProceeds c4Fields c4Fd = false := by
  exact ⟨by decide, by decide⟩

/-- C5 counterexample: a fault inside `initMobileMenu` propagates to
the single outer `try`/`catch` of `init`, so `initSmoothScroll` (and
everything after it) never runs — the initializers are NOT all
isolated. -/
theorem initFault_counterexample :
    runInit (fun g => g == Feature.mobileMenu) = [Feature.mobileMenu] ∧
    (Feature.smoothScroll ∈ runInit (fun g => g == Feature.mobileMenu)) = False := by
  exact ⟨by decide, by simp [runInit, runInitFrom, initOrder, hasOwnCatch]⟩

/-- C5 (amended): exactly the hero, about and programs initializers
carry their own fault boundary; a fault in one of those is caught
inside it and every other initializer still runs, while a fault in the
mobile menu, smooth scroll, lazy loading or form validation
initializer reaches the single outer handler of `init`, which logs it
and skips the remaining initializers. -/
theorem initFault_amended (f : Feature) :
    runInit (fun g => g == f) = initOrder ↔ hasOwnCatch f = true := by
  cases f <;> decide

/-! ## Category filtering -/

/-- C6 counterexample: after filtering, a card whose category matches
the selection has its `aria-hidden` attribute SET (to `"false"`), not
unset as the claim states. -/
theorem filterPrograms_counterexample :
    (filterPrograms "health" [⟨"health", true, some "true"⟩]).1 =
      [⟨"health", false, some "false"⟩] ∧
    ((filterPrograms "health" [⟨"health", true, some "true"⟩]).1.all
      (fun c => c.ariaHidden.isSome)) = true := by
  exact ⟨by decide, by decide⟩

/-- C6 (amended): after a filter operation the visible cards are
exactly those whose declared category matches the selection (all
cards, when the selection is `"all"`); every non-matching card gets
the `hidden` class and `aria-hidden="true"`, every matching card loses
the `hidden` class and gets `aria-hidden` explicitly set to
`"false"` (rather than removed), card categories are untouched, and
the announced count is the number of cards visible after the
operation. -/
theorem filterPrograms_amended (category : String) (cards : List Card) :
    (∀ c ∈ (filterPrograms category cards).1,
        (c.hidden = false ↔ (category = "all" ∨ c.category = category)) ∧
        c.ariaHidden = some (if c.hidden then "true" else "false")) ∧
    (filterPrograms category cards).1.map Card.category = cards.map Card.category ∧
    (filterPrograms category cards).2 =
      ((filterPrograms category cards).1.filter (fun c => !c.hidden)).length ∧
    filterAnnouncement category (filterPrograms category cards).2 =
      "Showing " ++ toString (filterPrograms category cards).2 ++ " " ++
        (if category = "all" then "all programs" else category ++ " programs") := by
  refine ⟨?_, ?_, ?_, rfl⟩
  · induction cards with
    | nil => simp [filterPrograms]
    | cons card rest ih =>
        simp only [filterPrograms]
        by_cases hb : (decide (category = "all") || decide (card.category = category)) = true
        · rw [if_pos hb]
          rw [Bool.or_eq_true, decide_eq_true_eq, decide_eq_true_eq] at hb
          intro c hc
          rcases List.mem_cons.mp hc with rfl | hc'
          · simp [hb]
          · exact ih c hc'
        · rw [if_neg hb]
          rw [Bool.or_eq_true, decide_eq_true_eq, decide_eq_true_eq] at hb
          push_neg at hb
          intro c hc
          rcases List.mem_cons.mp hc with rfl | hc'
          · simp [hb.1, hb.2]
          · exact ih c hc'
  · induction cards with
    | nil => simp [filterPrograms]
    | cons card rest ih =>
        simp only [filterPrograms]
        by_cases hb : (decide (category = "all") || decide (card.category = category)) = true
        · rw [if_pos hb]
          simp [ih]
        · rw [if_neg hb]
          simp [ih]
  · induction cards with
    | nil => simp [filterPrograms]
    | cons card rest ih =>
        simp only [filterPrograms]
        by_cases hb : (decide (category = "all") || decide (card.category = category)) = true
        · rw [if_pos hb]
          simp [ih]
        · rw [if_neg hb]
          simp [ih]

/-! ## Counter animation -/

/-- C7: at every clamped progress `p ∈ [0, 1]` a counter frame
displays `⌊target * (1 - (1 - p)^3)⌋`; the terminal frame displays
exactly the target, and the reduced-motion path snaps directly to the
target. -/
theorem counterFrame_spec (target : ℕ) (p elapsed duration : ℚ)
    (h0 : 0 ≤ p) (h1 : p ≤ 1) :
    counterFrame target p = ⌊(target : ℚ) * (1 - (1 - p) ^ 3)⌋ ∧
    counterFrame target 1 = (target : ℤ) ∧
    animateCounterDisplay target true elapsed duration = (target : ℤ) := by
  refine ⟨?_, by simp [counterFrame], by simp [animateCounterDisplay]⟩
  rw [counterFrame, easeOutCubic]
  by_cases hp : p < 1
  · rw [if_pos hp]
    congr 1
    ring
  · have hp1 : p = 1 := le_antisymm h1 (not_lt.mp hp)
    subst hp1
    rw [if_neg hp]
    norm_num

/-- C7 witness: the half-way frame of a 0-to-100 counter. -/
theorem counterFrame_spec_witness :
    counterFrame 100 (1 / 2) = ⌊(100 : ℚ) * (1 - (1 - 1 / 2) ^ 3)⌋ ∧
    counterFrame 100 1 = (100 : ℤ) ∧
    animateCounterDisplay 100 true 3 7 = (100 : ℤ) :=
  counterFrame_spec 100 (1 / 2) 3 7 (by norm_num) (by norm_num)

/-! ## One-shot observer lemmas -/

lemma obsStep_inv {E : Type} [DecidableEq E] (s : ObsState E) (e' : E)
    (hnd : s.observed.Nodup)
    (hinv : ∀ e, s.fired e + (if e ∈ s.observed then 1 else 0) ≤ 1) :
    (obsStep s e').observed.Nodup ∧
    ∀ e, (obsStep s e').fired e + (if e ∈ (obsStep s e').observed then 1 else 0) ≤ 1 := by
  rw [obsStep]
  by_cases hm : e' ∈ s.observed
  · rw [if_pos hm]
    refine ⟨hnd.erase e', fun e => ?_⟩
    by_cases hee : e = e'
    · subst hee
      have h0 : s.fired e = 0 := by
        have h := hinv e
        rw [if_pos hm] at h
        omega
      have hne : e ∉ s.observed.erase e := fun hc => (hnd.mem_erase_iff.mp hc).1 rfl
      simp only [if_pos rfl, if_neg hne, h0]
      simp
    · simp only [if_neg hee]
      by_cases he2 : e ∈ s.observed.erase e'
      · rw [if_pos he2]
        have hmem : e ∈ s.observed := (hnd.mem_erase_iff.mp he2).2
        have h := hinv e
        rw [if_pos hmem] at h
        exact h
      · rw [if_neg he2]
        have h := hinv e
        exact le_trans (Nat.le_add_right _ _) h
  · rw [if_neg hm]
    exact ⟨hnd, hinv⟩

lemma obsRun_inv {E : Type} [DecidableEq E] :
    ∀ (events : List E) (s : ObsState E), s.observed.Nodup →
      (∀ e, s.fired e + (if e ∈ s.observed then 1 else 0) ≤ 1) →
      (obsRun s events).observed.Nodup ∧
      ∀ e, (obsRun s events).fired e + (if e ∈ (obsRun s events).observed then 1 else 0) ≤ 1
  | [], _, hnd, hinv => ⟨hnd, hinv⟩
  | e' :: evs, s, hnd, hinv => by
      have h := obsStep_inv s e' hnd hinv
      exact obsRun_inv evs (obsStep s e') h.1 h.2

lemma obsRun_stable {E : Type} [DecidableEq E] (e : E) :
    ∀ (events : List E) (s : ObsState E), e ∉ s.observed →
      (obsRun s events).fired e = s.fired e ∧ e ∉ (obsRun s events).observed
  | [], _, h => ⟨rfl, h⟩
  | e' :: evs, s, h => by
      have hstep : (obsStep s e').fired e = s.fired e ∧ e ∉ (obsStep s e').observed := by
        rw [obsStep]
        by_cases hm : e' ∈ s.observed
        · rw [if_pos hm]
          have hne : e ≠ e' := fun hc => h (hc ▸ hm)
          exact ⟨by simp [hne], fun hc => h (List.mem_of_mem_erase hc)⟩
        · rw [if_neg hm]
          exact ⟨rfl, h⟩
      have hrec := obsRun_stable e evs (obsStep s e') hstep.2
      exact ⟨hrec.1.trans hstep.1, hrec.2⟩

/-- C8: starting from a duplicate-free observed set, any sequence of
intersection events fires the one-shot effect of each element at most once
(and an element still under observation has not fired); moreover a
triggered element fires exactly once and is no longer observed
afterwards, so re-triggering it later produces no second effect. -/
theorem obsRun_oneShot {E : Type} [DecidableEq E] (l : List E) (events : List E) (e : E)
    (hl : l.Nodup) (he : e ∈ l) :
    (obsRun (obsInit l) events).fired e +
      (if e ∈ (obsRun (obsInit l) events).observed then 1 else 0) ≤ 1 ∧
    (obsRun (obsInit l) (e :: events)).fired e = 1 ∧
    (if e ∈ (obsRun (obsInit l) (e :: events)).observed then (1 : ℕ) else 0) = 0 := by
  have hinv0 : ∀ x, (obsInit l).fired x + (if x ∈ (obsInit l).observed then 1 else 0) ≤ 1 := by
    intro x
    simp only [obsInit]
    split <;> omega
  refine ⟨(obsRun_inv events (obsInit l) hl hinv0).2 e, ?_⟩
  have hstep : (obsStep (obsInit l) e).fired e = 1 ∧ e ∉ (obsStep (obsInit l) e).observed := by
    rw [obsStep, if_pos (by simpa [obsInit] using he)]
    have hne : e ∉ l.erase e := fun hc => (hl.mem_erase_iff.mp hc).1 rfl
    exact ⟨by simp [obsInit], by simpa [obsInit] using hne⟩
  have hrun := obsRun_stable e events (obsStep (obsInit l) e) hstep.2
  have hcons : obsRun (obsInit l) (e :: events) = obsRun (obsStep (obsInit l) e) events := rfl
  rw [hcons]
  exact ⟨hrun.1.trans hstep.1, if_neg hrun.2⟩

/-- C8 witness: three observed elements, the first triggered three
times. -/
theorem obsRun_oneShot_witness :
    (obsRun (obsInit [0, 1, 2]) [0, 2, 0]).fired 0 +
      (if 0 ∈ (obsRun (obsInit [0, 1, 2]) [0, 2, 0]).observed then 1 else 0) ≤ 1 ∧
    (obsRun (obsInit [0, 1, 2]) (0 :: [0, 2, 0])).fired 0 = 1 ∧
    (if 0 ∈ (obsRun (obsInit [0, 1, 2]) (0 :: [0, 2, 0])).observed then (1 : ℕ) else 0) = 0 :=
  obsRun_oneShot [0, 1, 2] [0, 2, 0] 0 (by decide) (by decide)

/-! ## Anchor clicks -/

/-- C9 counterexample: the handler explicitly skips the `#main` skip
link even when `#main` resolves to an existing element — no scroll
adjustment, no focus move — contradicting the universal claim "for every
in-page anchor link whose fragment target resolves". -/
theorem handleAnchorClick_counterexample :
    mainResolver "#main" = some 500 ∧
    handleAnchorClick (some "#main") mainResolver true =
      ⟨false, none, false, false, false⟩ := by
  exact ⟨by decide, by decide⟩

/-- C9 (amended): for every anchor link other than an absent or empty
fragment, the bare `#`, and the `#main` skip link (all deliberately
left to default browser behavior): if the fragment resolves, the
handler prevents default navigation, scrolls to the absolute
top of the target minus the 80-unit header clearance (smoothly iff native smooth
scrolling is supported) and moves focus to the target; if it does not
resolve, only a diagnostic warning is logged and default behavior is
left in place. -/
theorem handleAnchorClick_amended (h : String) (resolveTop : String → Option ℤ)
    (smooth : Bool) (hne : ¬(h = "" ∨ h = "#" ∨ h = "#main")) :
    handleAnchorClick (some h) resolveTop smooth =
      (match resolveTop h with
       | some pos => ⟨true, some (pos - SCROLL_OFFSET), smooth, true, false⟩
       | none => ⟨false, none, false, false, true⟩) := by
  push_neg at hne
  rw [handleAnchorClick]
  rw [if_neg (by simp [hne.1, hne.2.1, hne.2.2])]
  cases resolveTop h <;> rfl

/-- C9 witness: a resolving `#about` link scrolls to 300 - 80 = 220
with smooth behavior and moves focus. -/
theorem handleAnchorClick_amended_witness :
    handleAnchorClick (some "#about") aboutResolver true =
      (match aboutResolver "#about" with
       | some pos => ⟨true, some (pos - SCROLL_OFFSET), true, true, false⟩
       | none => ⟨false, none, false, false, true⟩) :=
  handleAnchorClick_amended "#about" aboutResolver true (by decide)

end LandingPage
